import Mathlib

/-!
# Verification of the svg_stack box-layout and document-composition algorithms

Shallow embedding of `svg_stack.py` (the `BoxLayout.get_size` / `_calc_box`
sizing and placement algorithm, the `fix_ids` identifier rewriter, the
namespace-merge step of `LayoutAccumulator._make_finalized_root`, and the
`Document.save` output assembly), together with theorems settling the
specification's claims about them.

Floating-point arithmetic of the source is embedded as exact rational
arithmetic (`ℚ`); Python strings are embedded as `List Char`.
-/

namespace SvgStack

instance {ε α : Type} [DecidableEq ε] [DecidableEq α] : DecidableEq (Except ε α) :=
  fun a b =>
    match a, b with
    | .ok x, .ok y => if h : x = y then .isTrue (by rw [h]) else .isFalse (by simp [h])
    | .error x, .error y => if h : x = y then .isTrue (by rw [h]) else .isFalse (by simp [h])
    | .ok _, .error _ => .isFalse (by simp)
    | .error _, .ok _ => .isFalse (by simp)

/-- Python's two-argument `max`, used as `max(0, ...)` at line 557 and for the
running cross-axis maximum at lines 539/542 (kept as an explicit definition so
that it evaluates by kernel reduction). -/
def qmax (a b : ℚ) : ℚ := if a ≤ b then b else a

/-- Geometry value, from `class Size` (svg_stack.py lines 405-408). -/
structure SizeQ where
  width : ℚ
  height : ℚ
deriving DecidableEq

/-- The four direction constants for `BoxLayout` (lines 411-414). -/
inductive Direction where
  | LeftToRight
  | RightToLeft
  | TopToBottom
  | BottomToTop
deriving DecidableEq

/-- The test `self._direction in [LeftToRight, RightToLeft]` used throughout
`BoxLayout.get_size` (lines 515, 537, 556, 582, 616, 633). -/
def Direction.isHoriz : Direction → Bool
  | .LeftToRight => true
  | .RightToLeft => true
  | .TopToBottom => false
  | .BottomToTop => false

-- alignment bitmask constants (lines 417-425)
def AlignLeft : Nat := 0x01
def AlignRight : Nat := 0x02
def AlignHCenter : Nat := 0x04
def AlignTop : Nat := 0x20
def AlignBottom : Nat := 0x40
def AlignVCenter : Nat := 0x80
def AlignCenter : Nat := AlignHCenter.lor AlignVCenter

/-- One entry of `BoxLayout._items`: a leaf child together with its stretch
weight and alignment bitmask (the tuple `(item, stretch, alignment, xml)` built
by `addSVG` / `addSVGNoLayout`, lines 680-694).  `isNoLayout` distinguishes
`SVGFileNoLayout` from `SVGFile`; `naturalW`/`naturalH` are the child's pixel
size as returned by its `get_size` during the parent's pass 1 (for an
`SVGFile` its parsed natural size; for a nested `BoxLayout` child the size its
own recursive `get_size` returned, which this per-box model takes as given
data); `xOff`/`yOff` are the fixed offsets of `SVGFileNoLayout.__init__`
(meaningful only when `isNoLayout` is true). -/
structure Entry where
  isNoLayout : Bool
  naturalW : ℚ
  naturalH : ℚ
  xOff : ℚ
  yOff : ℚ
  stretch : ℚ
  alignment : Nat
deriving DecidableEq

/-- Extent of a size along the layout direction (`.width` for a horizontal
box, `.height` for a vertical one). -/
def mainLen (d : Direction) (sz : SizeQ) : ℚ :=
  if d.isHoriz then sz.width else sz.height

/-- Extent of a size across the layout direction. -/
def crossLen (d : Direction) (sz : SizeQ) : ℚ :=
  if d.isHoriz then sz.height else sz.width

/-- `if min_size is None: min_size = Size(0, 0)` (lines 511-512). -/
def minSize0 : Option SizeQ → SizeQ
  | none => ⟨0, 0⟩
  | some s => s

/-- The size an item reports in a sizing pass: `Size(0, 0)` for an
`SVGFileNoLayout` (lines 527-528 and 593-594), the child's own size otherwise
(line 530/596; `SVGFileBase.get_size` ignores its `min_size` argument,
lines 220-221). -/
def pass1ItemSize (e : Entry) : SizeQ :=
  if e.isNoLayout then ⟨0, 0⟩ else ⟨e.naturalW, e.naturalH⟩

/-- Pass-1 accumulation of `cum_dim` over the items (lines 526-545), without
the two margins.  `n` is `len(self._items)` and `i` the index of the head
entry.  A no-layout item is skipped entirely (`continue`, line 535), so it
contributes neither its extent nor a following spacing gap; every other item
contributes its main-axis extent plus one spacing gap unless it sits at the
last index. -/
def pass1CumFrom (d : Direction) (s : ℚ) (n : Nat) : Nat → List Entry → ℚ
  | _, [] => 0
  | i, e :: rest =>
      (if e.isNoLayout then 0
       else mainLen d (pass1ItemSize e) + (if i + 1 < n then s else 0))
        + pass1CumFrom d s n (i + 1) rest

/-- `cum_dim` at the end of pass 1 (line 546): first margin + accumulated
extents and gaps + last margin. -/
def pass1Total (d : Direction) (m s : ℚ) (entries : List Entry) : ℚ :=
  m + pass1CumFrom d s entries.length 0 entries + m

/-- `max_orth_dim` tracking of pass 1 before margins are added
(`orth_dim`, line 547): starts from the minimum size's cross extent
(lines 515-522) and takes the maximum with each counted item's cross extent
(lines 539/542); no-layout items are skipped (line 535). -/
def pass1Orth (d : Direction) (minSz : SizeQ) (entries : List Entry) : ℚ :=
  entries.foldl
    (fun acc e => if e.isNoLayout then acc else qmax acc (crossLen d (pass1ItemSize e)))
    (crossLen d minSz)

/-- `total_stretch` (lines 553-555). -/
def totalStretch (entries : List Entry) : ℚ :=
  entries.foldl (fun a e => a + e.stretch) 0

/-- `dim_unfilled_length` (lines 556-559): the slack, clamped at zero. -/
def dimUnfilledLength (d : Direction) (m s : ℚ) (minSz : Option SizeQ)
    (entries : List Entry) : ℚ :=
  qmax 0 (mainLen d (minSize0 minSz) - pass1Total d m s entries)

/-- `stretch_hack` (lines 561-569): positive slack but zero total stretch. -/
def stretchHack (d : Direction) (m s : ℚ) (minSz : Option SizeQ)
    (entries : List Entry) : Bool :=
  decide (0 < dimUnfilledLength d m s minSz entries ∧ totalStretch entries = 0)

/-- `stretch_inc` (lines 562-573): slack per unit of stretch weight. -/
def stretchInc (d : Direction) (m s : ℚ) (minSz : Option SizeQ)
    (entries : List Entry) : ℚ :=
  if 0 < dimUnfilledLength d m s minSz entries ∧ totalStretch entries ≠ 0 then
    dimUnfilledLength d m s minSz entries / totalStretch entries
  else 0

/-- `new_dim_length` for one item in pass 2 (lines 582-591).  NOTE: the code
of the vertical branch reads `old_item_size.width + dim_unfilled_length`
(line 590) — `.width`, not `.height` — in the `stretch_hack and is_last_item`
case; this embedding reproduces that literally. -/
def newDimLength (d : Direction) (hack : Bool) (unfilled inc : ℚ)
    (isLast : Bool) (oldSz : SizeQ) (stretch : ℚ) : ℚ :=
  if d.isHoriz then
    if hack && isLast then oldSz.width + unfilled else oldSz.width + stretch * inc
  else
    if hack && isLast then oldSz.width + unfilled else oldSz.height + stretch * inc

/-- The per-item allotment loop of pass 2 restricted to its `new_dim_length`
values; `n` is `len(self._items)` and `i` the index of the head entry
(`is_last_item` from lines 577-580). -/
def allotGo (d : Direction) (hack : Bool) (unfilled inc : ℚ) (n : Nat) :
    Nat → List Entry → List ℚ
  | _, [] => []
  | i, e :: rest =>
      newDimLength d hack unfilled inc (decide (i + 1 ≥ n)) (pass1ItemSize e) e.stretch
        :: allotGo d hack unfilled inc n (i + 1) rest

/-- The allotted main-axis length of each entry, in order: `new_dim_length`
as computed by pass 2 of `BoxLayout.get_size` (lines 575-591), given the box's
direction, margins `m`, spacing `s` and minimum target size. -/
def allottedLengths (d : Direction) (m s : ℚ) (minSz : Option SizeQ)
    (entries : List Entry) : List ℚ :=
  allotGo d (stretchHack d m s minSz entries)
    (dimUnfilledLength d m s minSz entries)
    (stretchInc d m s minSz entries) entries.length 0 entries

/-- `BoxLayout._calc_box` (lines 641-672): per-axis alignment arithmetic,
returning the item's position and final size. -/
def calcBox (inPos : ℚ × ℚ) (inSz itemSz : SizeQ) (alignment : Nat) :
    (ℚ × ℚ) × SizeQ :=
  let lw :=
    if AlignLeft.land alignment ≠ 0 then (inPos.1, itemSz.width)
    else if AlignRight.land alignment ≠ 0 then
      (inPos.1 + inSz.width - itemSz.width, itemSz.width)
    else if AlignHCenter.land alignment ≠ 0 then
      (inPos.1 + (1 / 2 : ℚ) * (inSz.width - itemSz.width), itemSz.width)
    else (inPos.1, inSz.width)
  let th :=
    if AlignTop.land alignment ≠ 0 then (inPos.2, itemSz.height)
    else if AlignBottom.land alignment ≠ 0 then
      (inPos.2 + inSz.height - itemSz.height, itemSz.height)
    else if AlignVCenter.land alignment ≠ 0 then
      (inPos.2 + (1 / 2 : ℚ) * (inSz.height - itemSz.height), itemSz.height)
    else (inPos.2, inSz.height)
  ((lw.1, th.1), ⟨lw.2, th.2⟩)

/-- The error message of lines 601-603 (`raise NotImplementedError`). -/
def dirNotImplemented : String := "direction not implemented"

/-- `child_box_coord` for one item (lines 597-605): flow-cursor position plus
the box's own coordinate, defined only for the two forward directions —
`RightToLeft` and `BottomToTop` raise `NotImplementedError`. -/
def childBoxCoord (d : Direction) (m cum : ℚ) (coord : ℚ × ℚ) :
    Except String (ℚ × ℚ) :=
  match d with
  | .LeftToRight => .ok (cum + coord.1, m + coord.2)
  | .TopToBottom => .ok (m + coord.1, cum + coord.2)
  | _ => .error dirNotImplemented

/-- The position and size written onto one child by pass 2
(`item._set_coord(item_pos)` / `item._set_size(final_item_size)`,
lines 613-614). -/
structure Placed where
  coord : ℚ × ℚ
  size : SizeQ
deriving DecidableEq

/-- `new_item_size` of pass 2 (lines 586/591): the allotted box, allotted
main-axis length on the main axis, `orth_dim` on the cross axis. -/
def newItemSizeOf (d : Direction) (orth newDim : ℚ) : SizeQ :=
  if d.isHoriz then ⟨newDim, orth⟩ else ⟨orth, newDim⟩

/-- The placement of a single item in the pass-2 loop, given the cursor value
`cum` at its slot: the child box coordinate (lines 597-605), the re-queried
item size (lines 593-596; a leaf returns its unchanged natural size, an
`SVGFileNoLayout` reports `Size(0,0)`), `_calc_box` (lines 608-610), and the
coordinate and size assigned to the child (lines 613-614) — an
`SVGFileNoLayout` adds its fixed offsets to the assigned coordinate
(`SVGFileNoLayout._set_coord`, lines 251-253). -/
def placeOne (d : Direction) (m orth : ℚ) (coord : ℚ × ℚ) (hack : Bool)
    (unfilled inc : ℚ) (isLast : Bool) (cum : ℚ) (e : Entry) :
    Except String Placed := do
  let newDim := newDimLength d hack unfilled inc isLast (pass1ItemSize e) e.stretch
  let newItemSize := newItemSizeOf d orth newDim
  let cbc ← childBoxCoord d m cum coord
  let itemSize2 := pass1ItemSize e
  let pf := calcBox cbc newItemSize itemSize2 e.alignment
  let assigned : ℚ × ℚ :=
    if e.isNoLayout then (pf.1.1 + e.xOff, pf.1.2 + e.yOff) else pf.1
  .ok ⟨assigned, pf.2⟩

/-- The pass-2 placement loop (lines 575-627) and the final `cum_dim` (the
trailing margin of line 627 is added at the base case).  The cursor advances
by the allotted (`new_item_size`) main-axis extent plus one spacing gap when
not last (lines 616-626). -/
def pass2Go (d : Direction) (m s orth : ℚ) (coord : ℚ × ℚ) (hack : Bool)
    (unfilled inc : ℚ) (n : Nat) :
    Nat → ℚ → List Entry → Except String (List Placed × ℚ)
  | _, cum, [] => .ok ([], cum + m)
  | i, cum, e :: rest => do
      let isLast := decide (i + 1 ≥ n)
      let newDim := newDimLength d hack unfilled inc isLast (pass1ItemSize e) e.stretch
      let p ← placeOne d m orth coord hack unfilled inc isLast cum e
      let cum1 := cum + mainLen d (newItemSizeOf d orth newDim)
      let cum2 := if isLast then cum1 else cum1 + s
      let r ← pass2Go d m s orth coord hack unfilled inc n (i + 1) cum2 rest
      .ok (p :: r.1, r.2)

/-- `BoxLayout.get_size` (lines 507-639), for a box whose items are leaves:
given direction, margins `m`, spacing `s`, the box's coordinate and an
optional minimum target size, returns the computed box size together with the
coordinate and size assigned to each child, or the `NotImplementedError` of
lines 601-603.  The returned size uses the pass-2 `cum_dim` (lines 631-636)
and `orth_dim + 2*margins` (line 548). -/
def boxGetSize (d : Direction) (m s : ℚ) (coord : ℚ × ℚ)
    (minSz : Option SizeQ) (entries : List Entry) :
    Except String (SizeQ × List Placed) := do
  let ms := minSize0 minSz
  let orth := pass1Orth d ms entries
  let maxOrth := orth + 2 * m
  let hack := stretchHack d m s minSz entries
  let unfilled := dimUnfilledLength d m s minSz entries
  let inc := stretchInc d m s minSz entries
  let r ← pass2Go d m s orth coord hack unfilled inc entries.length 0 m entries
  let size : SizeQ := if d.isHoriz then ⟨r.2, maxOrth⟩ else ⟨maxOrth, r.2⟩
  .ok (size, r.1)

/-- The total advance of the pass-2 cursor over the first `k` items of `l`
(`i` the index of the head of `l`): each item advances the cursor by its
allotted main-axis length plus one spacing gap when it is not at the last
index (lines 616-626). -/
def cumOffset (d : Direction) (s : ℚ) (hack : Bool) (unf inc : ℚ) (n : Nat) :
    Nat → Nat → List Entry → ℚ
  | _, 0, _ => 0
  | _, _ + 1, [] => 0
  | i, k + 1, e :: rest =>
      newDimLength d hack unf inc (decide (i + 1 ≥ n)) (pass1ItemSize e) e.stretch
        + (if i + 1 ≥ n then 0 else s)
        + cumOffset d s hack unf inc n (i + 1) k rest

/-- The measured size alone of a `get_size` query (the value `render` passes
to `accum._set_size` at top level, lines 447-450). -/
def boxMeasuredSize (d : Direction) (m s : ℚ) (coord : ℚ × ℚ)
    (minSz : Option SizeQ) (entries : List Entry) : Except String SizeQ :=
  (boxGetSize d m s coord minSz entries).map Prod.fst

/-! ## The identifier/reference rewriter `fix_ids` (lines 80-114)

Python strings are embedded as `List Char`; the Clark-notation namespace
markers that lxml puts in tag and attribute names are kept verbatim. -/

/-- Python's `str.startswith` on character lists (first argument: the
pattern). -/
def startsWithL : List Char → List Char → Bool
  | [], _ => true
  | _ :: _, [] => false
  | c :: cs, a :: rest => c == a && startsWithL cs rest

/-- The SVG namespace marker `ns` of line 81 (`'\x7bhttp://...svg\x7d'` in
Clark notation). -/
def svgNS : List Char := ("\x7bhttp://www.w3.org/2000/svg\x7d").toList

/-- The xlink namespace marker tested at line 97. -/
def xlinkNS : List Char := ("\x7bhttp://www.w3.org/1999/xlink\x7d").toList

/-- Lines 97-100: an attribute is treated as a "relative IRI" attribute
unless its name is in the xlink namespace. -/
def relIRI (attrib : List Char) : Bool := !(startsWithL xlinkNS attrib)

/-- The literal head of the pattern `relIRI_re = url\(#(.*)\)` (line 49). -/
def urlPat : List Char := ("url(#").toList

/-- Index of the last occurrence of `c` in a character list. -/
def lastIdxOf (c : Char) : List Char → Option Nat
  | [] => none
  | a :: rest =>
      match lastIdxOf c rest with
      | some k => some (k + 1)
      | none => if a == c then some 0 else none

/-- `re.sub(relIRI_re, r'url(#' + prefix + r'\1)', value)` (lines 49 and 107):
Python scans left to right for non-overlapping matches of `url\(#(.*)\)`; at a
match position the greedy `.*` (which cannot cross a newline) captures up to
the last `)` on the same line, and scanning resumes after the match. -/
def urlSubGo (p : List Char) : List Char → List Char
  | [] => []
  | a :: rest =>
      if startsWithL urlPat (a :: rest) then
        match lastIdxOf ')' ((rest.drop 4).takeWhile (fun ch => ch != '\n')) with
        | some j =>
            urlPat ++ p ++ (rest.drop 4).take j
              ++ ')' :: urlSubGo p ((rest.drop 4).drop (j + 1))
        | none => a :: urlSubGo p rest
      else a :: urlSubGo p rest
termination_by l => l.length
decreasing_by
  all_goals simp [List.length_drop]
  all_goals omega

/-- The per-attribute rewrite of `fix_ids` (lines 92-109), given the prefix,
the attribute's (namespace-qualified) name and its value: an xlink-namespace
attribute whose value starts with the local-IRI marker `#` gets the prefix
inserted after the marker; every other attribute undergoes the
`url\(#(.*)\)` substitution (the assign-only-if-changed test of lines
108-109 makes no observable difference); anything else is left unchanged.
(The separate `id`-attribute prefixing of lines 87-88 happens before this
per-attribute loop and is modelled in `fixElem` below.) -/
def fixAttrValue (p attrib value : List Char) : List Char :=
  if (!relIRI attrib) && startsWithL ['#'] value then
    '#' :: (p ++ value.drop 1)
  else if relIRI attrib then urlSubGo p value
  else value

/-- Modelled from the claim's wording (spec §4.5), for comparison with the
source-derived `fixAttrValue`: "attributes in a dedicated link namespace are
always treated as fragment references and rewritten by prefixing the
referenced fragment name; all other attributes are rewritten only if their
value starts with a local-fragment marker, and independently any functional
fragment-reference pattern found anywhere inside an attribute value is
rewritten in place". -/
def fixAttrValueSpec (p attrib value : List Char) : List Char :=
  if startsWithL xlinkNS attrib then
    (if startsWithL ['#'] value then '#' :: (p ++ value.drop 1) else p ++ value)
  else
    urlSubGo p (if startsWithL ['#'] value then '#' :: (p ++ value.drop 1) else value)

/-! ## Namespace-prefix collection of `_make_finalized_root` (lines 288-304) -/

/-- A namespace prefix as lxml presents it: `none` is the default namespace. -/
abbrev NSKey := Option (List Char)

def svgURI : List Char := ("http://www.w3.org/2000/svg").toList

def sodipodiURI : List Char := ("http://sodipodi.sourceforge.net/DTD/sodipodi-0.dtd").toList

def svgKeyName : List Char := ("svg").toList

/-- The seeded namespace table `NSMAP` of lines 289-291. -/
def initialNSMAP : List (NSKey × List Char) :=
  [(none, svgURI), (some ("sodipodi").toList, sodipodiURI)]

/-- Dictionary lookup (`key in NSMAP` / `NSMAP[key]`): the first binding of
`k`; the table is only ever extended with fresh keys, so the first binding is
the only one. -/
def lookupNS (t : List (NSKey × List Char)) (k : NSKey) : Option (List Char) :=
  (t.find? (fun kv => decide (kv.1 = k))).map (fun kv => kv.2)

/-- Processing of a single `(key, value)` binding of one source root's nsmap
(lines 294-304): an already-bound prefix must map to the same URI
(`assert value == NSMAP[key]`), the prefix `svg` is required to equal the
default namespace binding and is never inserted (`assert value == NSMAP[None]`,
lines 299-302), and any other fresh prefix is added to the table.  A failed
`assert` is an error. -/
def addOneNS (t : List (NSKey × List Char)) (kv : NSKey × List Char) :
    Except Unit (List (NSKey × List Char)) :=
  match lookupNS t kv.1 with
  | some v0 => if kv.2 = v0 then .ok t else .error ()
  | none =>
      if kv.1 = some svgKeyName then
        match lookupNS t none with
        | some v0 => if kv.2 = v0 then .ok t else .error ()
        | none => .error ()
      else .ok (t ++ [kv])

/-- The inner loop of lines 294-304 over one root's bindings. -/
def addRootNS : List (NSKey × List Char) → List (NSKey × List Char) →
    Except Unit (List (NSKey × List Char))
  | [], t => .ok t
  | kv :: rest, t => do
      let t1 ← addOneNS t kv
      addRootNS rest t1

/-- The outer loop of line 292 over the source roots. -/
def collectNSMAP : List (List (NSKey × List Char)) → List (NSKey × List Char) →
    Except Unit (List (NSKey × List Char))
  | [], t => .ok t
  | b :: roots, t => do
      let t1 ← addRootNS b t
      collectNSMAP roots t1

/-- The namespace-collection step of `_make_finalized_root` (lines 288-304):
it iterates over `self._svgfiles` only (line 292) — the `nolayout` argument is
the accumulator's no-layout list, accepted but never examined. -/
def mergeNSMAP (flowed nolayout : List (List (NSKey × List Char))) :
    Except Unit (List (NSKey × List Char)) :=
  collectNSMAP flowed initialNSMAP

/-- The bindings of all flowed roots, concatenated in iteration order. -/
def nsJoin : List (List (NSKey × List Char)) → List (NSKey × List Char)
  | [] => []
  | b :: roots => b ++ nsJoin roots

/-- Declarative conflict condition for one binding `kv` arriving after the
bindings `pre`: a `svg`-prefixed binding conflicts exactly when its URI is not
the SVG namespace; any other binding conflicts exactly when its prefix is
already bound — by the seeded table or an earlier binding — to a different
URI. -/
def nsErrAt (pre : List (NSKey × List Char)) (kv : NSKey × List Char) : Prop :=
  if kv.1 = some svgKeyName then kv.2 ≠ svgURI
  else
    match lookupNS (initialNSMAP ++ pre) kv.1 with
    | some v0 => kv.2 ≠ v0
    | none => False

/-- The invariant tying the running table to the processed binding stream. -/
def NSInv (t : List (NSKey × List Char)) (pre : List (NSKey × List Char)) : Prop :=
  (∀ k, k ≠ some svgKeyName → lookupNS t k = lookupNS (initialNSMAP ++ pre) k) ∧
  lookupNS t (some svgKeyName) = none

/-! ## The output tree: `_make_finalized_root` (lines 287-401) and
`Document.save` (lines 168-189) -/

/-- Attribute values in the element-tree model: source attribute strings,
numbers written with `repr()` (lines 398-399), and the two transform forms of
lines 389 and 392. -/
inductive AttrVal where
  | str (v : List Char)
  | num (q : ℚ)
  | matrixT (sx sy tx ty : ℚ)
  | translateT (tx ty : ℚ)
deriving DecidableEq

/-- An element tree (lxml `Element`): Clark-notation tag, attributes in
insertion order, children in document order. -/
inductive XElem where
  | elem (tag : List Char) (attrs : List (List Char × AttrVal)) (children : List XElem)

def XElem.tag : XElem → List Char
  | .elem t _ _ => t

def XElem.attrs : XElem → List (List Char × AttrVal)
  | .elem _ a _ => a

def XElem.children : XElem → List XElem
  | .elem _ _ c => c

/-- The id-attribute prefixing of lines 87-88 followed by the per-attribute
reference rewrite of lines 92-109, over one element's attribute list. -/
def fixElemAttrs (p : List Char) (attrs : List (List Char × AttrVal)) :
    List (List Char × AttrVal) :=
  (attrs.map (fun av =>
    if av.1 = ("id").toList then
      match av.2 with
      | .str s => (av.1, AttrVal.str (p ++ s))
      | v => (av.1, v)
    else av)).map
    (fun av =>
      match av.2 with
      | .str s => (av.1, AttrVal.str (fixAttrValue p av.1 s))
      | v => (av.1, v))

/-- `fix_ids` (lines 80-114): rewrite the attributes of every element whose
tag is in the SVG namespace, and recurse into all children regardless of
namespace. -/
def fixIds (p : List Char) : XElem → XElem
  | .elem tag attrs children =>
      .elem tag
        (if startsWithL svgNS tag then fixElemAttrs p attrs else attrs)
        (children.attach.map (fun c => fixIds p c.1))
decreasing_by
  have := List.sizeOf_lt_of_mem c.2
  simp at this ⊢
  omega

def defsTag : List Char := svgNS ++ ("defs").toList

def metadataTag : List Char := svgNS ++ ("metadata").toList

/-- The tag compared at line 347.  Note the stray `:` after the closing
Clark-notation brace in the source (`'...sodipodi-0.dtd\x7d:namedview'`), so
this string never equals a real namedview tag and such elements are in fact
copied rather than dropped; the comparison is embedded verbatim. -/
def namedviewTagColon : List Char :=
  ("\x7bhttp://sodipodi.sourceforge.net/DTD/sodipodi-0.dtd\x7d:namedview").toList

def gTag : List Char := svgNS ++ ("g").toList

def svgTag : List Char := svgNS ++ ("svg").toList

/-- `'id%d:'` (line 327). -/
def idPrefOf (n : Nat) : List Char := ("id").toList ++ (Nat.repr n).toList ++ [':']

/-- `'id{}'` (line 330). -/
def idNameOf (n : Nat) : List Char := ("id").toList ++ (Nat.repr n).toList

/-- The parsed data of one leaf's source document used by the merge step:
the root's child elements, its namespace declarations, its `viewBox` (if
any), and its original pixel size (`_orig_width_px`/`_orig_height_px`,
lines 213-214). -/
structure LeafDoc where
  rootChildren : List XElem
  nsBindings : List (NSKey × List Char)
  viewBox : Option (ℚ × ℚ × ℚ × ℚ)
  origW : ℚ
  origH : ℚ

/-- The child-copying loop of lines 336-353: children of a `defs` element are
hoisted — after `fix_ids` — for the shared defs container; elements whose tag
equals the (misspelled) namedview comparison string or the `metadata` tag are
dropped; everything else is copied into the wrapper group (where `fix_ids`
reaches it later, at line 355). -/
def splitChildren (p : List Char) : List XElem → (List XElem × List XElem)
  | [] => ([], [])
  | c :: rest =>
      let r := splitChildren p rest
      if c.tag = defsTag then (r.1, c.children.map (fun x => fixIds p x) ++ r.2)
      else if c.tag = namedviewTagColon then r
      else if c.tag = metadataTag then r
      else (c :: r.1, r.2)

/-- Build the wrapper group for one leaf (lines 324-394): `n` is its
registration number, `doLayout` whether it is a flowed leaf, `placed` the
coordinate and size assigned by layout.  The wrapper is created with
`id='id{n}'` (line 330), filled with the copied children, then `fix_ids` is
applied to the whole wrapper (line 355, which also prefixes the wrapper's own
id), the rescaling check of lines 359-373 may raise, and finally the
placement transform of lines 374-393 is appended: a `matrix(...)` mapping the
declared viewBox onto the assigned box, or a pure `translate(...)` when no
viewBox is declared.  Returns the wrapper and the hoisted defs children. -/
def buildWrapper (n : Nat) (doLayout : Bool) (doc : LeafDoc) (placed : Placed) :
    Except String (XElem × List XElem) :=
  let p := idPrefOf n
  let split := splitChildren p doc.rootChildren
  let g0 : XElem := .elem gTag [(("id").toList, .str (idNameOf n))] split.1
  let g1 := fixIds p g0
  if doLayout = true ∧ (placed.size.width ≠ doc.origW ∨ placed.size.height ≠ doc.origH) then
    .error "rescaling not implemented"
  else
    let transform : List Char × AttrVal :=
      match doc.viewBox with
      | some (vbminx, vbminy, vbwidth, vbheight) =>
          (("transform").toList,
            .matrixT (placed.size.width / vbwidth) (placed.size.height / vbheight)
              (placed.coord.1 - vbminx) (placed.coord.2 - vbminy))
      | none => (("transform").toList, .translateT placed.coord.1 placed.coord.2)
    .ok (.elem g1.tag (g1.attrs ++ [transform]) g1.children, split.2)

/-- The work-list loop of lines 314-324 over a run of leaves sharing one
`doLayout` flag, numbering them from `startNum`: returns the wrapper groups in
order and the hoisted defs children in order. -/
def buildWork (startNum : Nat) (doLayout : Bool) :
    List (LeafDoc × Placed) → Except String (List XElem × List XElem)
  | [] => .ok ([], [])
  | dp :: rest => do
      let one ← buildWrapper startNum doLayout dp.1 dp.2
      let more ← buildWork (startNum + 1) doLayout rest
      .ok (one.1 :: more.1, one.2 ++ more.2)

/-- `_make_finalized_root` (lines 287-401): collect namespaces (flowed leaves
only), create the root `svg` element with `version='1.1'` and a first `defs`
child, build one wrapper group per leaf — all flowed leaves first, then all
no-layout leaves, continuing the numbering — append the raw decoration
elements, and set the root's `width`/`height` to the computed document size.
The root's children are: the shared defs container, then the wrapper groups
in registration order, then the raw elements. -/
def makeFinalizedRoot (flowed nolayout : List (LeafDoc × Placed))
    (raws : List XElem) (size : SizeQ) : Except String XElem := do
  let _nsmap ← Except.mapError (fun _ => "namespace conflict")
    (mergeNSMAP (flowed.map (fun dp => dp.1.nsBindings))
      (nolayout.map (fun dp => dp.1.nsBindings)))
  let fl ← buildWork 0 true flowed
  let nl ← buildWork flowed.length false nolayout
  let rootDefs : XElem := .elem defsTag [] (fl.2 ++ nl.2)
  .ok (.elem svgTag
    [(("version").toList, .str ("1.1").toList),
     (("width").toList, .num size.width),
     (("height").toList, .num size.height)]
    (rootDefs :: (fl.1 ++ nl.1) ++ raws))

/-- The fixed XML declaration line written first by `Document.save`
(`header_str`, lines 158 and 185). -/
def header_str : List Char := ("<?xml version=\"1.0\" encoding=\"UTF-8\"?>").toList

/-- One item of a top-level box layout together with its leaf document data
and optional attached raw xml decoration. -/
structure DocEntry where
  entry : Entry
  doc : LeafDoc
  xml : Option XElem

/-- The raw decoration fragment recorded by `render` for one placed item
(lines 500-505): a group translated to the item's assigned coordinate,
wrapping the attached xml. -/
def rawOf (p : Placed) (x : XElem) : XElem :=
  .elem gTag [(("transform").toList, .translateT p.coord.1 p.coord.2)] [x]

/-- `Document.save` (lines 168-189) for a document whose layout is a single
box of leaf items: `render` runs `get_size` (computing every child's assigned
coordinate and size and the document size, lines 446-450), registers flowed
leaves and then no-layout leaves in item order, records decoration fragments
at their items' assigned coordinates, and the output is the fixed header line
followed by the finalized root. -/
def documentSave (d : Direction) (m s : ℚ) (docEntries : List DocEntry) :
    Except String (List Char × XElem) := do
  let entries := docEntries.map (fun de => de.entry)
  let r ← boxGetSize d m s (0, 0) none entries
  let paired := docEntries.zip r.2
  let flowed := (paired.filter (fun dp => !dp.1.entry.isNoLayout)).map
    (fun dp => (dp.1.doc, dp.2))
  let nolayout := (paired.filter (fun dp => dp.1.entry.isNoLayout)).map
    (fun dp => (dp.1.doc, dp.2))
  let raws := paired.filterMap (fun dp => dp.1.xml.map (fun x => rawOf dp.2 x))
  let root ← makeFinalizedRoot flowed nolayout raws r.1
  .ok (header_str, root)

/-! ## Basic lemmas about the sizing pass -/

lemma qmax_eq_of_le {a b : ℚ} (h : a ≤ b) : qmax a b = b := if_pos h

lemma allotGo_get? (d : Direction) (hack : Bool) (unf inc : ℚ) (n : Nat) :
    ∀ (l : List Entry) (i k : Nat),
      (allotGo d hack unf inc n i l).get? k =
        (l.get? k).map
          (fun e =>
            newDimLength d hack unf inc (decide (i + k + 1 ≥ n)) (pass1ItemSize e) e.stretch)
  | [], _, _ => by simp [allotGo]
  | e :: rest, i, 0 => by simp [allotGo]
  | e :: rest, i, k + 1 => by
      have hik : i + 1 + k = i + (k + 1) := by omega
      simpa [allotGo, hik] using allotGo_get? d hack unf inc n rest (i + 1) k

/-- **C4**: whenever the minimum target main-axis extent exceeds the pass-1
total (positive slack `S`) and the total stretch weight `W` is positive, the
allotted main-axis length of entry `i` equals its pass-1 natural main-axis
length plus `S * w_i / W`; in particular an entry with weight `0` receives no
extra length. -/
theorem c4_proportional_distribution (d : Direction) (m s : ℚ) (minSz : Option SizeQ)
    (entries : List Entry) (i : Nat) (e : Entry)
    (he : entries.get? i = some e)
    (hslack : pass1Total d m s entries < mainLen d (minSize0 minSz))
    (hW : 0 < totalStretch entries) :
    (allottedLengths d m s minSz entries).get? i =
      some (mainLen d (pass1ItemSize e) +
        (mainLen d (minSize0 minSz) - pass1Total d m s entries) * e.stretch /
          totalStretch entries) := by
  have hunf : dimUnfilledLength d m s minSz entries
      = mainLen d (minSize0 minSz) - pass1Total d m s entries := by
    unfold dimUnfilledLength
    exact qmax_eq_of_le (by linarith)
  have hpos : 0 < dimUnfilledLength d m s minSz entries := by rw [hunf]; linarith
  have hW' : totalStretch entries ≠ 0 := ne_of_gt hW
  have hhack : stretchHack d m s minSz entries = false := by
    unfold stretchHack
    simp only [decide_eq_false_iff_not]
    rintro ⟨-, h0⟩
    exact hW' h0
  have hinc : stretchInc d m s minSz entries
      = dimUnfilledLength d m s minSz entries / totalStretch entries := by
    unfold stretchInc
    rw [if_pos ⟨hpos, hW'⟩]
  unfold allottedLengths
  rw [allotGo_get?, he, hhack, hinc, hunf]
  cases hh : d.isHoriz <;>
    simp only [Option.map_some, newDimLength, hh, Bool.false_and, Bool.false_eq_true,
      if_false, if_true, mainLen, Option.some.injEq] <;>
    ring_nf <;> simp [mainLen, hh] <;> ring

/-- Witness for `c4_proportional_distribution`: two 100×100 entries with
weights 1 and 3 in a row box with minimum width 300 (slack 100); entry 1 gets
`100 + 100*3/4 = 175`. -/
theorem c4_witness :
    (allottedLengths Direction.LeftToRight 0 0 (some ⟨300, 0⟩)
        [⟨false, 100, 100, 0, 0, 1, 0⟩, ⟨false, 100, 100, 0, 0, 3, 0⟩]).get? 1 =
      some 175 := by
  have h := c4_proportional_distribution Direction.LeftToRight 0 0 (some ⟨300, 0⟩)
    [⟨false, 100, 100, 0, 0, 1, 0⟩, ⟨false, 100, 100, 0, 0, 3, 0⟩] 1
    ⟨false, 100, 100, 0, 0, 3, 0⟩ (by norm_num)
    (by norm_num [pass1Total, pass1CumFrom, pass1ItemSize, mainLen, minSize0,
      Direction.isHoriz])
    (by norm_num [totalStretch])
  rw [h]
  norm_num [mainLen, pass1ItemSize, pass1Total, pass1CumFrom, minSize0, totalStretch,
    Direction.isHoriz]

/-- **C1** (code bug, svg_stack.py line 590): in a column (`TopToBottom`) box
with all stretch weights zero and positive slack, the whole slack is indeed
given to the last entry and non-last entries keep their natural lengths, but
the last entry's new length is computed from its pass-1 *width* instead of its
height: with entries of natural sizes 10×50 and 20×30 and a minimum height of
100 (pass-1 total 80, slack 20), the computed allotments are `[50, 40]`
(40 = width 20 + slack 20), while natural main-axis length + slack is
`30 + 20 = 50`. -/
theorem c1_column_slack_eval :
    allottedLengths Direction.TopToBottom 0 0 (some ⟨0, 100⟩)
        [⟨false, 10, 50, 0, 0, 0, 0⟩, ⟨false, 20, 30, 0, 0, 0, 0⟩] = [50, 40] ∧
    mainLen Direction.TopToBottom (pass1ItemSize ⟨false, 20, 30, 0, 0, 0, 0⟩) +
        dimUnfilledLength Direction.TopToBottom 0 0 (some ⟨0, 100⟩)
          [⟨false, 10, 50, 0, 0, 0, 0⟩, ⟨false, 20, 30, 0, 0, 0, 0⟩] = 50 ∧
    (40 : ℚ) ≠ 50 := by
  norm_num [allottedLengths, allotGo, stretchHack, stretchInc, dimUnfilledLength, pass1Total,
    pass1CumFrom, pass1ItemSize, newDimLength, mainLen, crossLen, minSize0, qmax,
    Direction.isHoriz, totalStretch]

/-- **C10** (code bug, same slip as C1): the claim that no entry is ever
allotted less than its natural main-axis length fails: a single 20×100 entry
in a column box with minimum height 110 (slack 10) is allotted
`20 + 10 = 30 < 100`. -/
theorem c10_shrink_eval :
    allottedLengths Direction.TopToBottom 0 0 (some ⟨0, 110⟩)
        [⟨false, 20, 100, 0, 0, 0, 0⟩] = [30] ∧
    (30 : ℚ) < mainLen Direction.TopToBottom (pass1ItemSize ⟨false, 20, 100, 0, 0, 0, 0⟩) := by
  norm_num [allottedLengths, allotGo, stretchHack, stretchInc, dimUnfilledLength, pass1Total,
    pass1CumFrom, pass1ItemSize, newDimLength, mainLen, crossLen, minSize0, qmax,
    Direction.isHoriz, totalStretch]

/-- **C7** (code bug, acknowledged by the source's own FIXME comments at
lines 611-612): `get_size` — the measurement query — writes a coordinate and
size onto its child: querying a row box of one 100×50 leaf with minimum size
150×50 assigns the child coordinate (0,0) and size 150×50, which differs from
the child's natural size. -/
theorem c7_mutation_eval :
    boxGetSize Direction.LeftToRight 0 0 (0, 0) (some ⟨150, 50⟩)
        [⟨false, 100, 50, 0, 0, 0, 0⟩] =
      .ok (⟨150, 50⟩, [⟨(0, 0), ⟨150, 50⟩⟩]) ∧
    (⟨150, 50⟩ : SizeQ) ≠ pass1ItemSize ⟨false, 100, 50, 0, 0, 0, 0⟩ := by
  norm_num [boxGetSize, pass2Go, placeOne, childBoxCoord, calcBox, newItemSizeOf,
    stretchHack, stretchInc, dimUnfilledLength, pass1Total, pass1CumFrom, pass1ItemSize,
    newDimLength, mainLen, crossLen, minSize0, qmax, Direction.isHoriz, totalStretch,
    pass1Orth, AlignLeft, AlignRight, AlignHCenter, AlignTop, AlignBottom, AlignVCenter,
    Bind.bind, Except.bind]
  simp +decide

/-- **C8**: the concrete scenario of the specification: two 100×100 flowed
leaves in a column box with margin 5 and spacing 0 yield canvas size 110×210,
the first leaf at (5,5) and the second at (5,105). -/
theorem c8_concrete_scenario :
    boxGetSize Direction.TopToBottom 5 0 (0, 0) none
        [⟨false, 100, 100, 0, 0, 0, 0⟩, ⟨false, 100, 100, 0, 0, 0, 0⟩] =
      .ok (⟨110, 210⟩, [⟨(5, 5), ⟨100, 100⟩⟩, ⟨(5, 105), ⟨100, 100⟩⟩]) := by
  norm_num [boxGetSize, pass2Go, placeOne, childBoxCoord, calcBox, newItemSizeOf,
    stretchHack, stretchInc, dimUnfilledLength, pass1Total, pass1CumFrom, pass1ItemSize,
    newDimLength, mainLen, crossLen, minSize0, qmax, Direction.isHoriz, totalStretch,
    pass1Orth, AlignLeft, AlignRight, AlignHCenter, AlignTop, AlignBottom, AlignVCenter,
    Bind.bind, Except.bind]

/-- **C6 counterexample**: a reversed-direction (`RightToLeft`) box with one
entry does not succeed — `get_size` raises `NotImplementedError`
(lines 601-603) — although the corresponding forward (`LeftToRight`) box
succeeds, so reversed flow does not "produce the same sizes and positions as
the forward direction". -/
theorem c6_counterexample :
    boxGetSize Direction.RightToLeft 0 0 (0, 0) none [⟨false, 100, 100, 0, 0, 0, 0⟩] =
      .error dirNotImplemented ∧
    boxGetSize Direction.LeftToRight 0 0 (0, 0) none [⟨false, 100, 100, 0, 0, 0, 0⟩] =
      .ok (⟨100, 100⟩, [⟨(0, 0), ⟨100, 100⟩⟩]) := by
  norm_num [boxGetSize, pass2Go, placeOne, childBoxCoord, calcBox, newItemSizeOf,
    stretchHack, stretchInc, dimUnfilledLength, pass1Total, pass1CumFrom, pass1ItemSize,
    newDimLength, mainLen, crossLen, minSize0, qmax, Direction.isHoriz, totalStretch,
    pass1Orth, AlignLeft, AlignRight, AlignHCenter, AlignTop, AlignBottom, AlignVCenter,
    Bind.bind, Except.bind]

/-- **C6 amended**: reversed directions are accepted as configuration and
measured with the same axis conventions as the corresponding forward
direction, but the placement step of `get_size` fails with
`NotImplementedError` for every non-empty entry list; only an empty
reversed box behaves exactly like its forward counterpart. -/
theorem c6_amended (m s : ℚ) (coord : ℚ × ℚ) (minSz : Option SizeQ)
    (e : Entry) (rest : List Entry) :
    boxGetSize Direction.RightToLeft m s coord minSz (e :: rest) =
      .error dirNotImplemented ∧
    boxGetSize Direction.BottomToTop m s coord minSz (e :: rest) =
      .error dirNotImplemented ∧
    boxGetSize Direction.RightToLeft m s coord minSz [] =
      boxGetSize Direction.LeftToRight m s coord minSz [] ∧
    boxGetSize Direction.BottomToTop m s coord minSz [] =
      boxGetSize Direction.TopToBottom m s coord minSz [] := by
  refine ⟨?_, ?_, ?_, ?_⟩ <;>
    simp [boxGetSize, pass2Go, placeOne, childBoxCoord, newItemSizeOf, Bind.bind, Except.bind,
      pass1Orth, crossLen, mainLen, Direction.isHoriz, stretchHack, stretchInc,
      dimUnfilledLength, pass1Total, pass1CumFrom, minSize0, qmax, totalStretch]

/-! ## Pass-2 placement lemmas -/

lemma exceptBind_ok {ε α β : Type} {x : Except ε α} {f : α → Except ε β} {b : β}
    (h : Except.bind x f = .ok b) : ∃ a, x = .ok a ∧ f a = .ok b := by
  cases x with
  | error e => simp [Except.bind] at h
  | ok a => exact ⟨a, rfl, by simpa [Except.bind] using h⟩

lemma mainLen_newItemSizeOf (d : Direction) (orth x : ℚ) :
    mainLen d (newItemSizeOf d orth x) = x := by
  cases hh : d.isHoriz <;> simp [mainLen, newItemSizeOf, hh]

lemma pass2Go_ok_get? (d : Direction) (m s orth : ℚ) (coord : ℚ × ℚ) (hack : Bool)
    (unf inc : ℚ) (n : Nat) :
    ∀ (l : List Entry) (i : Nat) (cum : ℚ) (pl : List Placed) (tot : ℚ),
      pass2Go d m s orth coord hack unf inc n i cum l = .ok (pl, tot) →
      ∀ (k : Nat) (e : Entry), l.get? k = some e →
        pl.get? k =
          (placeOne d m orth coord hack unf inc (decide (i + k + 1 ≥ n))
            (cum + cumOffset d s hack unf inc n i k l) e).toOption := by
  intro l
  induction l with
  | nil => intro i cum pl tot hok k e he; simp at he
  | cons e' rest ih =>
      intro i cum pl tot hok k e he
      simp only [pass2Go, Bind.bind] at hok
      obtain ⟨p, hp, hok⟩ := exceptBind_ok hok
      obtain ⟨r, hr, hok⟩ := exceptBind_ok hok
      obtain ⟨hpl, -⟩ : p :: r.1 = pl ∧ r.2 = tot := by
        constructor <;> cases hok <;> rfl
      subst hpl
      cases k with
      | zero =>
          simp only [List.get?_cons_zero, Option.some.injEq] at he
          subst he
          simp [cumOffset, hp, Except.toOption]
      | succ k =>
          simp only [List.get?_cons_succ] at he
          have hik : i + 1 + k = i + (k + 1) := by omega
          have := ih (i + 1) _ r.1 r.2 (by rw [hr]) k e he
          rw [List.get?_cons_succ, this, hik]
          by_cases hc : i + 1 ≥ n <;>
            simp [cumOffset, hc, mainLen_newItemSizeOf] <;> ring_nf

lemma pass2Go_ok_total (d : Direction) (m s orth : ℚ) (coord : ℚ × ℚ) (hack : Bool)
    (unf inc : ℚ) (n : Nat) :
    ∀ (l : List Entry) (i : Nat) (cum : ℚ) (pl : List Placed) (tot : ℚ),
      pass2Go d m s orth coord hack unf inc n i cum l = .ok (pl, tot) →
      tot = cum + cumOffset d s hack unf inc n i l.length l + m := by
  intro l
  induction l with
  | nil =>
      intro i cum pl tot hok
      simp only [pass2Go, Except.ok.injEq, Prod.mk.injEq] at hok
      simp [cumOffset, ← hok.2]
  | cons e' rest ih =>
      intro i cum pl tot hok
      simp only [pass2Go, Bind.bind] at hok
      obtain ⟨p, hp, hok⟩ := exceptBind_ok hok
      obtain ⟨r, hr, hok⟩ := exceptBind_ok hok
      obtain ⟨-, htot⟩ : p :: r.1 = pl ∧ r.2 = tot := by
        constructor <;> cases hok <;> rfl
      have := ih (i + 1) _ r.1 r.2 (by rw [hr])
      rw [← htot, this]
      by_cases hc : i + 1 ≥ n <;>
        simp [cumOffset, hc, mainLen_newItemSizeOf, List.length_cons] <;> ring_nf

lemma boxGetSize_ok_pass2 (d : Direction) (m s : ℚ) (coord : ℚ × ℚ)
    (minSz : Option SizeQ) (entries : List Entry) (sz : SizeQ) (placed : List Placed)
    (hok : boxGetSize d m s coord minSz entries = .ok (sz, placed)) :
    ∃ tot, pass2Go d m s (pass1Orth d (minSize0 minSz) entries) coord
        (stretchHack d m s minSz entries) (dimUnfilledLength d m s minSz entries)
        (stretchInc d m s minSz entries) entries.length 0 m entries = .ok (placed, tot) := by
  simp only [boxGetSize, Bind.bind] at hok
  obtain ⟨r, hr, hok⟩ := exceptBind_ok hok
  injection hok with h
  injection h with h1 h2
  exact ⟨r.2, by rw [← h2]; exact hr⟩

/-- Cursor characterization in the common situation `i + l.length = n`
(which holds for the top-level call of `pass2Go`): the pass-2 cursor advance
over the first `k < l.length` items is the sum of their allotted lengths plus
`k` spacing gaps. -/
lemma cumOffset_eq_take_sum (d : Direction) (s : ℚ) (hack : Bool) (unf inc : ℚ) (n : Nat) :
    ∀ (l : List Entry) (i k : Nat), i + l.length = n → k < l.length →
      cumOffset d s hack unf inc n i k l =
        ((allotGo d hack unf inc n i l).take k).sum + k * s := by
  intro l
  induction l with
  | nil => intro i k hn hk; simp at hk
  | cons e rest ih =>
      intro i k hn hk
      cases k with
      | zero => simp [cumOffset]
      | succ k =>
          have hklt : k < rest.length := by simp at hk; omega
          have hlt : ¬ (i + 1 ≥ n) := by simp at hn; omega
          have hrec := ih (i + 1) k (by simp at hn ⊢; omega) hklt
          simp only [cumOffset, allotGo, hlt, if_false, List.take_succ_cons, List.sum_cons, hrec]
          push_cast
          ring

/-- **C3 counterexample**: a no-layout leaf with declared offset (10,20)
placed after a 100×100 flowed sibling in a row box (margin 0, spacing 0) is
assigned position (110,20) — the cursor position of its slot plus its offset —
not (10,20); and with spacing 7, adding the same no-layout leaf changes the
measured main-axis size from 100 to 107, so it does not contribute zero to the
measured size. -/
theorem c3_counterexample :
    boxGetSize Direction.LeftToRight 0 0 (0, 0) none
        [⟨false, 100, 100, 0, 0, 0, 0⟩, ⟨true, 0, 0, 10, 20, 0, 0⟩] =
      .ok (⟨100, 100⟩, [⟨(0, 0), ⟨100, 100⟩⟩, ⟨(110, 20), ⟨0, 100⟩⟩]) ∧
    ((110 : ℚ), (20 : ℚ)) ≠ ((10 : ℚ), (20 : ℚ)) ∧
    boxMeasuredSize Direction.LeftToRight 0 7 (0, 0) none
        [⟨false, 100, 100, 0, 0, 0, 0⟩, ⟨true, 0, 0, 10, 20, 0, 0⟩] = .ok ⟨107, 100⟩ ∧
    boxMeasuredSize Direction.LeftToRight 0 7 (0, 0) none
        [⟨false, 100, 100, 0, 0, 0, 0⟩] = .ok ⟨100, 100⟩ := by
  refine ⟨?_, by norm_num, ?_, ?_⟩ <;>
    norm_num [boxMeasuredSize, boxGetSize, pass2Go, placeOne, childBoxCoord, calcBox,
      newItemSizeOf, stretchHack, stretchInc, dimUnfilledLength, pass1Total, pass1CumFrom,
      pass1ItemSize, newDimLength, mainLen, crossLen, minSize0, qmax, Direction.isHoriz,
      totalStretch, pass1Orth, AlignLeft, AlignRight, AlignHCenter, AlignTop, AlignBottom,
      AlignVCenter, Nat.land, Bind.bind, Except.bind, Except.map]

lemma newDimLength_nohack (d : Direction) (unf inc : ℚ) (b : Bool) (sz : SizeQ) (w : ℚ) :
    newDimLength d false unf inc b sz w = mainLen d sz + w * inc := by
  cases hh : d.isHoriz <;> simp [newDimLength, mainLen, hh]

lemma placeOne_noLayout_LTR (m orth : ℚ) (coord : ℚ × ℚ) (hack : Bool) (unf inc : ℚ)
    (isLast : Bool) (cum : ℚ) (e : Entry) (hnl : e.isNoLayout = true) (hal : e.alignment = 0) :
    placeOne Direction.LeftToRight m orth coord hack unf inc isLast cum e =
      .ok ⟨(cum + coord.1 + e.xOff, m + coord.2 + e.yOff),
        ⟨newDimLength Direction.LeftToRight hack unf inc isLast (pass1ItemSize e) e.stretch,
          orth⟩⟩ := by
  simp [placeOne, childBoxCoord, calcBox, newItemSizeOf, hnl, hal, Bind.bind, Except.bind,
    AlignLeft, AlignRight, AlignHCenter, AlignTop, AlignBottom, AlignVCenter,
    Direction.isHoriz, Nat.land]

lemma placeOne_noLayout_TTB (m orth : ℚ) (coord : ℚ × ℚ) (hack : Bool) (unf inc : ℚ)
    (isLast : Bool) (cum : ℚ) (e : Entry) (hnl : e.isNoLayout = true) (hal : e.alignment = 0) :
    placeOne Direction.TopToBottom m orth coord hack unf inc isLast cum e =
      .ok ⟨(m + coord.1 + e.xOff, cum + coord.2 + e.yOff),
        ⟨orth,
          newDimLength Direction.TopToBottom hack unf inc isLast (pass1ItemSize e) e.stretch⟩⟩ := by
  simp [placeOne, childBoxCoord, calcBox, newItemSizeOf, hnl, hal, Bind.bind, Except.bind,
    AlignLeft, AlignRight, AlignHCenter, AlignTop, AlignBottom, AlignVCenter,
    Direction.isHoriz, Nat.land]

lemma placeOne_forward_ok (d : Direction)
    (hd : d = Direction.LeftToRight ∨ d = Direction.TopToBottom) (m orth : ℚ)
    (coord : ℚ × ℚ) (hack : Bool) (unf inc : ℚ) (isLast : Bool) (cum : ℚ) (e : Entry) :
    ∃ p, placeOne d m orth coord hack unf inc isLast cum e = .ok p := by
  rcases hd with hd | hd <;> subst hd <;> exact ⟨_, rfl⟩

lemma pass2Go_forward_ok (d : Direction)
    (hd : d = Direction.LeftToRight ∨ d = Direction.TopToBottom) (m s orth : ℚ)
    (coord : ℚ × ℚ) (hack : Bool) (unf inc : ℚ) (n : Nat) :
    ∀ (l : List Entry) (i : Nat) (cum : ℚ),
      ∃ pl tot, pass2Go d m s orth coord hack unf inc n i cum l = .ok (pl, tot) := by
  intro l
  induction l with
  | nil => intro i cum; exact ⟨[], cum + m, rfl⟩
  | cons e rest ih =>
      intro i cum
      obtain ⟨p, hp⟩ := placeOne_forward_ok d hd m orth coord hack unf inc
        (decide (i + 1 ≥ n)) cum e
      obtain ⟨pl, tot, hrec⟩ := ih (i + 1)
        (if decide (i + 1 ≥ n) = true then
          cum + mainLen d (newItemSizeOf d orth
            (newDimLength d hack unf inc (decide (i + 1 ≥ n)) (pass1ItemSize e) e.stretch))
        else
          cum + mainLen d (newItemSizeOf d orth
            (newDimLength d hack unf inc (decide (i + 1 ≥ n)) (pass1ItemSize e) e.stretch)) + s)
      exact ⟨p :: pl, tot, by
        simp only [pass2Go, Bind.bind, hp, Except.bind, hrec]⟩

lemma boxGetSize_reversed_err (d : Direction)
    (hd : d = Direction.RightToLeft ∨ d = Direction.BottomToTop) (m s : ℚ)
    (coord : ℚ × ℚ) (minSz : Option SizeQ) (e : Entry) (rest : List Entry) :
    boxGetSize d m s coord minSz (e :: rest) = .error dirNotImplemented := by
  rcases hd with hd | hd <;> subst hd <;>
    simp [boxGetSize, pass2Go, placeOne, childBoxCoord, Bind.bind, Except.bind]

/-- For the two implemented directions, the measured size of a `get_size`
query is the pass-2 cursor total on the main axis and `orth_dim + 2*margins`
on the cross axis. -/
lemma boxMeasuredSize_forward (d : Direction)
    (hd : d = Direction.LeftToRight ∨ d = Direction.TopToBottom) (m s : ℚ)
    (coord : ℚ × ℚ) (minSz : Option SizeQ) (l : List Entry) :
    boxMeasuredSize d m s coord minSz l =
      .ok (if d.isHoriz then
            (⟨m + cumOffset d s (stretchHack d m s minSz l) (dimUnfilledLength d m s minSz l)
                (stretchInc d m s minSz l) l.length 0 l.length l + m,
              pass1Orth d (minSize0 minSz) l + 2 * m⟩ : SizeQ)
          else
            ⟨pass1Orth d (minSize0 minSz) l + 2 * m,
              m + cumOffset d s (stretchHack d m s minSz l) (dimUnfilledLength d m s minSz l)
                (stretchInc d m s minSz l) l.length 0 l.length l + m⟩) := by
  obtain ⟨pl, tot, hp⟩ := pass2Go_forward_ok d hd m s (pass1Orth d (minSize0 minSz) l) coord
    (stretchHack d m s minSz l) (dimUnfilledLength d m s minSz l)
    (stretchInc d m s minSz l) l.length l 0 m
  have htot := pass2Go_ok_total d m s (pass1Orth d (minSize0 minSz) l) coord
    (stretchHack d m s minSz l) (dimUnfilledLength d m s minSz l)
    (stretchInc d m s minSz l) l.length l 0 m pl tot hp
  simp only [boxMeasuredSize, boxGetSize, Bind.bind, hp, Except.bind, Except.map, htot]

lemma pass1CumFrom_zero_spacing (d : Direction) (n : Nat) :
    ∀ (l : List Entry) (i : Nat),
      pass1CumFrom d 0 n i l =
        ((l.filter (fun e => !e.isNoLayout)).map (fun e => mainLen d (pass1ItemSize e))).sum
  | [], _ => by simp [pass1CumFrom]
  | e :: rest, i => by
      by_cases hnl : e.isNoLayout <;>
        simp [pass1CumFrom, hnl, pass1CumFrom_zero_spacing d n rest (i + 1), ite_self]

lemma pass1Orth_filter (d : Direction) :
    ∀ (l : List Entry) (a : ℚ),
      l.foldl (fun acc e =>
          if e.isNoLayout then acc else qmax acc (crossLen d (pass1ItemSize e))) a =
        (l.filter (fun e => !e.isNoLayout)).foldl (fun acc e =>
          if e.isNoLayout then acc else qmax acc (crossLen d (pass1ItemSize e))) a
  | [], _ => rfl
  | e :: rest, a => by
      by_cases hnl : e.isNoLayout <;>
        simp [hnl, pass1Orth_filter d rest]

lemma foldl_add_stretch :
    ∀ (l : List Entry) (a : ℚ),
      l.foldl (fun a e => a + e.stretch) a = a + (l.map Entry.stretch).sum
  | [], a => by simp
  | e :: rest, a => by
      simp [foldl_add_stretch rest (a + e.stretch)]
      ring

lemma sum_map_filter_noLayout (f : Entry → ℚ) :
    ∀ l : List Entry, (∀ e ∈ l, e.isNoLayout = true → f e = 0) →
      ((l.filter (fun e => !e.isNoLayout)).map f).sum = (l.map f).sum
  | [], _ => rfl
  | e :: rest, h => by
      have hrest := sum_map_filter_noLayout f rest (fun e' he' => h e' (List.mem_cons_of_mem _ he'))
      by_cases hnl : e.isNoLayout
      · simp [hnl, hrest, h e (List.mem_cons_self _ _) hnl]
      · simp [hnl, hrest]

lemma totalStretch_filter (l : List Entry)
    (h : ∀ e ∈ l, e.isNoLayout = true → e.stretch = 0) :
    totalStretch l = totalStretch (l.filter (fun e => !e.isNoLayout)) := by
  unfold totalStretch
  rw [foldl_add_stretch, foldl_add_stretch, sum_map_filter_noLayout Entry.stretch l h]

lemma stretchInc_of_hack (d : Direction) (m s : ℚ) (minSz : Option SizeQ)
    (entries : List Entry) (h : stretchHack d m s minSz entries = true) :
    stretchInc d m s minSz entries = 0 := by
  unfold stretchHack at h
  rw [decide_eq_true_eq] at h
  unfold stretchInc
  rw [if_neg]
  rintro ⟨-, hne⟩
  exact hne h.2

lemma cumOffset_len_nohack (d : Direction) (s unf inc : ℚ) (n : Nat) :
    ∀ (l : List Entry) (i : Nat), (s = 0) →
      cumOffset d s false unf inc n i l.length l =
        (l.map (fun e => mainLen d (pass1ItemSize e) + e.stretch * inc)).sum
  | [], _, _ => by simp [cumOffset]
  | e :: rest, i, hs => by
      subst hs
      simp [List.length_cons, cumOffset, newDimLength_nohack,
        cumOffset_len_nohack d 0 unf inc n rest (i + 1) rfl, ite_self]

lemma cumOffset_len_hack (d : Direction) (hh : d.isHoriz = true) (unf : ℚ) (n : Nat) :
    ∀ (l : List Entry) (i : Nat), l ≠ [] → i + l.length = n →
      cumOffset d 0 true unf 0 n i l.length l =
        (l.map (fun e => (pass1ItemSize e).width)).sum + unf
  | [], _, hne, _ => absurd rfl hne
  | [e], i, _, hn => by
      have hlast : i + 1 ≥ n := by simp at hn; omega
      simp [cumOffset, newDimLength, hh, hlast, decide_eq_true_eq]
  | e :: e2 :: rest, i, _, hn => by
      have hnotlast : ¬ (i + 1 ≥ n) := by simp at hn; omega
      have hrec := cumOffset_len_hack d hh unf n (e2 :: rest) (i + 1) (by simp)
        (by simp at hn ⊢; omega)
      simp only [List.length_cons] at hrec ⊢
      have hstep : cumOffset d 0 true unf 0 n i (rest.length + 1 + 1) (e :: e2 :: rest)
          = newDimLength d true unf 0 (decide (i + 1 ≥ n)) (pass1ItemSize e) e.stretch
            + (if i + 1 ≥ n then 0 else 0)
            + cumOffset d 0 true unf 0 n (i + 1) (rest.length + 1) (e2 :: rest) := rfl
      rw [hstep, hrec]
      simp [newDimLength, hh, hnotlast]
      ring

/-- **C3 amended**: a no-layout leaf (offset `(x,y)`, the zero alignment and
stretch that `addSVGNoLayout` assigns) is *not* placed at `(x,y)` plus the
containing box's coordinate: it is placed at `(x,y)` plus the pass-2 flow
cursor of its slot — the box's coordinate plus the leading margin plus the
allotted lengths of, and the spacing gaps after, all preceding entries.  Its
assigned position therefore does depend on the sizes and order of preceding
siblings.  It contributes nothing to the measured cross-axis size, and with
spacing 0 (spacing gaps are counted even for no-layout slots in pass 2) and at
least one flowed sibling, removing all no-layout leaves leaves the measured
size unchanged — except in a column box in the zero-total-stretch positive
slack case, where the line-590 width/height slip (see C1) can perturb the
total, hence the `stretchHack = false ∨ isHoriz` proviso. -/
theorem c3_amended (d : Direction) (m s : ℚ) (coord : ℚ × ℚ) (minSz : Option SizeQ)
    (entries : List Entry) :
    (∀ (k : Nat) (e : Entry) (sz : SizeQ) (placed : List Placed),
      boxGetSize d m s coord minSz entries = .ok (sz, placed) →
      entries.get? k = some e → e.isNoLayout = true → e.alignment = 0 →
      (d = Direction.LeftToRight →
        (placed.get? k).map Placed.coord =
          some (coord.1 + (m + (((allottedLengths d m s minSz entries).take k).sum + k * s))
              + e.xOff,
            coord.2 + m + e.yOff)) ∧
      (d = Direction.TopToBottom →
        (placed.get? k).map Placed.coord =
          some (coord.1 + m + e.xOff,
            coord.2 + (m + (((allottedLengths d m s minSz entries).take k).sum + k * s))
              + e.yOff))) ∧
    (s = 0 → (∀ e ∈ entries, e.isNoLayout = true → e.stretch = 0) →
      entries.filter (fun e => !e.isNoLayout) ≠ [] →
      (stretchHack d m s minSz entries = false ∨ d.isHoriz = true) →
      boxMeasuredSize d m s coord minSz entries =
        boxMeasuredSize d m s coord minSz (entries.filter (fun e => !e.isNoLayout))) := by
  constructor
  · -- part (a): the placement formula
    intro k e sz placed hok he hnl hal
    have hk : k < entries.length := by
      rcases List.get?_eq_some.mp he with ⟨h, -⟩
      exact h
    obtain ⟨tot, hp2⟩ := boxGetSize_ok_pass2 d m s coord minSz entries sz placed hok
    have hget := pass2Go_ok_get? d m s (pass1Orth d (minSize0 minSz) entries) coord
      (stretchHack d m s minSz entries) (dimUnfilledLength d m s minSz entries)
      (stretchInc d m s minSz entries) entries.length entries 0 m placed tot hp2 k e he
    rw [cumOffset_eq_take_sum _ _ _ _ _ _ entries 0 k (by omega) hk] at hget
    constructor
    · intro hd
      subst hd
      rw [hget, placeOne_noLayout_LTR _ _ _ _ _ _ _ _ _ hnl hal]
      simp only [Except.toOption, Option.map_some', allottedLengths, Option.some.injEq,
        Prod.mk.injEq]
      constructor <;> ring
    · intro hd
      subst hd
      rw [hget, placeOne_noLayout_TTB _ _ _ _ _ _ _ _ _ hnl hal]
      simp only [Except.toOption, Option.map_some', allottedLengths, Option.some.injEq,
        Prod.mk.injEq]
      constructor <;> ring
  · -- part (b): size invariance under removal of no-layout leaves
    intro hs hstr hne hcav
    subst hs
    have hFF : (entries.filter (fun e => !e.isNoLayout)).filter (fun e => !e.isNoLayout)
        = entries.filter (fun e => !e.isNoLayout) := by
      rw [List.filter_filter]
      simp
    have htot : pass1Total d m 0 entries
        = pass1Total d m 0 (entries.filter (fun e => !e.isNoLayout)) := by
      unfold pass1Total
      rw [pass1CumFrom_zero_spacing, pass1CumFrom_zero_spacing, hFF]
    have horth : pass1Orth d (minSize0 minSz) entries
        = pass1Orth d (minSize0 minSz) (entries.filter (fun e => !e.isNoLayout)) := by
      unfold pass1Orth
      rw [pass1Orth_filter]
    have hts : totalStretch entries
        = totalStretch (entries.filter (fun e => !e.isNoLayout)) :=
      totalStretch_filter entries hstr
    have hunf : dimUnfilledLength d m 0 minSz entries
        = dimUnfilledLength d m 0 minSz (entries.filter (fun e => !e.isNoLayout)) := by
      unfold dimUnfilledLength
      rw [htot]
    have hhack : stretchHack d m 0 minSz entries
        = stretchHack d m 0 minSz (entries.filter (fun e => !e.isNoLayout)) := by
      unfold stretchHack
      rw [hunf, hts]
    have hinc : stretchInc d m 0 minSz entries
        = stretchInc d m 0 minSz (entries.filter (fun e => !e.isNoLayout)) := by
      unfold stretchInc
      rw [hunf, hts]
    have hentne : entries ≠ [] := by
      intro h
      subst h
      simp at hne
    rcases hd4 : d with hL | hR | hT | hB
    case RightToLeft | BottomToTop =>
      subst hd4
      obtain ⟨e0, rest0, hcons⟩ := List.exists_cons_of_ne_nil hentne
      obtain ⟨e1, rest1, hcons1⟩ := List.exists_cons_of_ne_nil hne
      unfold boxMeasuredSize
      rw [hcons1, hcons, boxGetSize_reversed_err _ (by simp) m 0 coord minSz,
        boxGetSize_reversed_err _ (by simp) m 0 coord minSz]
    case LeftToRight | TopToBottom =>
      rw [← hd4]
      rw [boxMeasuredSize_forward d (by simp [hd4]) m 0 coord minSz entries,
        boxMeasuredSize_forward d (by simp [hd4]) m 0 coord minSz
          (entries.filter (fun e => !e.isNoLayout))]
      rw [← hhack, ← hunf, ← hinc, ← horth]
      cases hcase : stretchHack d m 0 minSz entries with
      | false =>
        rw [cumOffset_len_nohack d 0 _ _ _ entries 0 rfl,
          cumOffset_len_nohack d 0 _ _ _ (entries.filter (fun e => !e.isNoLayout)) 0 rfl,
          sum_map_filter_noLayout _ entries (by
            intro e' he' hnl'
            have h0 : e'.stretch = 0 := hstr e' he' hnl'
            simp [pass1ItemSize, hnl', h0, mainLen])]
      | true =>
        have hhz : d.isHoriz = true := by
          rcases hcav with hc | hc
          · rw [hcase] at hc
            simp at hc
          · exact hc
        have hinc0 : stretchInc d m 0 minSz entries = 0 :=
          stretchInc_of_hack d m 0 minSz entries hcase
        rw [hinc0, cumOffset_len_hack d hhz _ _ entries 0 hentne (by omega),
          cumOffset_len_hack d hhz _ _ (entries.filter (fun e => !e.isNoLayout)) 0 hne
            (by omega),
          sum_map_filter_noLayout _ entries (by
            intro e' he' hnl'
            simp [pass1ItemSize, hnl'])]

/-- Witness for `c3_amended`: in the counterexample configuration (100×100
flowed leaf followed by a no-layout leaf with offset (10,20), row direction,
margin 0, spacing 0) the amended formula places the no-layout leaf at
(110, 20). -/
theorem c3_witness :
    ((([⟨(0, 0), ⟨100, 100⟩⟩, ⟨(110, 20), ⟨0, 100⟩⟩] : List Placed).get? 1).map
      Placed.coord) = some (110, 20) := by
  have h := ((c3_amended Direction.LeftToRight 0 0 (0, 0) none
      [⟨false, 100, 100, 0, 0, 0, 0⟩, ⟨true, 0, 0, 10, 20, 0, 0⟩]).1 1
      ⟨true, 0, 0, 10, 20, 0, 0⟩ ⟨100, 100⟩
      [⟨(0, 0), ⟨100, 100⟩⟩, ⟨(110, 20), ⟨0, 100⟩⟩]
      (by norm_num [boxGetSize, pass2Go, placeOne, childBoxCoord, calcBox,
        newItemSizeOf, stretchHack, stretchInc, dimUnfilledLength, pass1Total, pass1CumFrom,
        pass1ItemSize, newDimLength, mainLen, crossLen, minSize0, qmax, Direction.isHoriz,
        totalStretch, pass1Orth, AlignLeft, AlignRight, AlignHCenter, AlignTop, AlignBottom,
        AlignVCenter, Nat.land, Bind.bind, Except.bind])
      rfl rfl rfl).1 rfl
  rw [h]
  norm_num [allottedLengths, allotGo, newDimLength, stretchHack, stretchInc,
    dimUnfilledLength, pass1Total, pass1CumFrom, pass1ItemSize, mainLen, minSize0, qmax,
    Direction.isHoriz, totalStretch]

/-! ## Lemmas about the identifier/reference rewriter -/

lemma startsWithL_append : ∀ (x y : List Char), startsWithL x (x ++ y) = true
  | [], _ => rfl
  | c :: cs, y => by simp [startsWithL, startsWithL_append cs y]

lemma lastIdxOf_append_single (c : Char) :
    ∀ (l : List Char), c ∉ l → lastIdxOf c (l ++ [c]) = some l.length
  | [], _ => by simp [lastIdxOf]
  | a :: rest, h => by
      have hrest := lastIdxOf_append_single c rest (fun hm => h (List.mem_cons_of_mem _ hm))
      simp [lastIdxOf, hrest]

/-- **C2 counterexample**: for the non-xlink attribute `fill` with value
`#foo`, the code's rewrite leaves the value unchanged (the `#`-marker branch
of `fix_ids` applies only to xlink-namespace attributes, lines 97-105), while
the claim's rule rewrites it to `#id0:foo`. -/
theorem c2_counterexample :
    fixAttrValue ("id0:").toList ("fill").toList ("#foo").toList = ("#foo").toList ∧
    fixAttrValueSpec ("id0:").toList ("fill").toList ("#foo").toList = ("#id0:foo").toList ∧
    ("#id0:foo").toList ≠ ("#foo").toList := by
  refine ⟨?_, ?_, by decide⟩ <;>
    simp +decide [fixAttrValue, fixAttrValueSpec, relIRI, urlSubGo, lastIdxOf, startsWithL,
      urlPat, xlinkNS, String.toList]

/-- **C2 amended**: the two rewrite forms are attached to the *opposite*
attribute classes from the claim: an xlink-namespace attribute is rewritten by
inserting the prefix after the local-fragment marker `#` exactly when its
value starts with `#` (and is otherwise unchanged); every *other* attribute
undergoes the functional-pattern substitution, which rewrites the leftmost
`url(#...)` occurrence per line segment with the reference name captured
greedily up to the last closing parenthesis on that line; a value in which the
pattern head `url(#` does not occur is left byte-for-byte unchanged, and a
value that is exactly `url(#name)` (no `)` or newline inside the name) becomes
`url(#prefix+name)`. -/
theorem c2_amended :
    (∀ p a v : List Char,
      (startsWithL xlinkNS a = true →
        (startsWithL ['#'] v = true → fixAttrValue p a v = '#' :: (p ++ v.drop 1)) ∧
        (startsWithL ['#'] v = false → fixAttrValue p a v = v)) ∧
      (startsWithL xlinkNS a = false → fixAttrValue p a v = urlSubGo p v)) ∧
    (∀ p v : List Char,
      (∀ t, t <:+ v → startsWithL urlPat t = false) → urlSubGo p v = v) ∧
    (∀ p name : List Char, (')') ∉ name → ('\n') ∉ name →
      urlSubGo p (urlPat ++ name ++ [')']) = urlPat ++ p ++ name ++ [')']) := by
  refine ⟨?_, ?_, ?_⟩
  · intro p a v
    constructor
    · intro hx
      constructor
      · intro hv
        simp [fixAttrValue, relIRI, hx, hv]
      · intro hv
        simp [fixAttrValue, relIRI, hx, hv]
    · intro hx
      simp [fixAttrValue, relIRI, hx]
  · intro p v h
    induction v with
    | nil => simp [urlSubGo]
    | cons a rest ih =>
        have hm : startsWithL urlPat (a :: rest) = false := h _ (List.suffix_refl _)
        rw [urlSubGo, if_neg (by simp [hm])]
        exact congrArg (a :: ·)
          (ih (fun t ht => h t (ht.trans (List.suffix_cons a rest))))
  · intro p name hpar hnl
    have hurl : urlPat = ['u', 'r', 'l', '(', '#'] := by decide
    have hstart : startsWithL urlPat (urlPat ++ (name ++ [')'])) = true :=
      startsWithL_append _ _
    rw [hurl] at hstart ⊢
    simp only [List.cons_append, List.nil_append, List.append_assoc] at hstart ⊢
    rw [urlSubGo, hurl]
    rw [if_pos hstart]
    have hdrop : ('r' :: 'l' :: '(' :: '#' :: (name ++ [')'])).drop 4 = name ++ [')'] := rfl
    rw [hdrop]
    have htake : (name ++ [')']).takeWhile (fun ch => ch != '\n') = name ++ [')'] := by
      rw [List.takeWhile_eq_self_iff]
      intro ch hch
      rcases List.mem_append.mp hch with hname | hparen
      · simp only [bne_iff_ne, ne_eq]
        intro hcontra
        exact hnl (hcontra ▸ hname)
      · simp at hparen
        simp [hparen]
    rw [htake, lastIdxOf_append_single ')' name hpar]
    have htk : (name ++ [')']).take name.length = name := List.take_left name [')']
    have hdr : (name ++ [')']).drop (name.length + 1) = [] := by
      rw [List.drop_eq_nil_iff]
      simp
    simp [htk, hdr, urlSubGo]

/-- Witness for `c2_amended`: an xlink `href` attribute with value `#a` under
prefix `id0:` is rewritten to `#id0:a`. -/
theorem c2_witness :
    fixAttrValue ("id0:").toList ("\x7bhttp://www.w3.org/1999/xlink\x7dhref").toList
      ("#a").toList = ("#id0:a").toList := by
  have h := ((c2_amended.1 ("id0:").toList
      ("\x7bhttp://www.w3.org/1999/xlink\x7dhref").toList ("#a").toList).1
      (by decide)).1 (by decide)
  rw [h]
  decide

/-! ## Lemmas about the namespace merge -/

lemma lookupNS_append (l1 l2 : List (NSKey × List Char)) (k : NSKey) :
    lookupNS (l1 ++ l2) k = (lookupNS l1 k).or (lookupNS l2 k) := by
  unfold lookupNS
  rw [List.find?_append]
  cases l1.find? (fun kv => decide (kv.1 = k)) <;> simp [Option.or]

lemma lookupNS_single_ne (kv : NSKey × List Char) (k : NSKey) (h : k ≠ kv.1) :
    lookupNS [kv] k = none := by
  simp only [lookupNS, List.find?]
  rw [decide_eq_false (fun h2 => h h2.symm)]
  rfl

lemma lookupNS_initial_none (pre : List (NSKey × List Char)) :
    lookupNS (initialNSMAP ++ pre) none = some svgURI := by
  rw [lookupNS_append]
  simp [lookupNS, initialNSMAP, List.find?, Option.or]

lemma addOneNS_spec (t : List (NSKey × List Char)) (pre : List (NSKey × List Char))
    (kv : NSKey × List Char) (hinv : NSInv t pre) :
    (addOneNS t kv = .error () ↔ nsErrAt pre kv) ∧
    (∀ t1, addOneNS t kv = .ok t1 → NSInv t1 (pre ++ [kv])) := by
  obtain ⟨hlk, hsvg⟩ := hinv
  by_cases hk : kv.1 = some svgKeyName
  · have h1 : lookupNS t kv.1 = none := by rw [hk]; exact hsvg
    have h0 : lookupNS t none = some svgURI := by
      rw [hlk none (by simp), lookupNS_initial_none]
    have heq : addOneNS t kv = (if kv.2 = svgURI then .ok t else .error ()) := by
      simp [addOneNS, h1, hk, h0, hsvg]
    have herr_eq : nsErrAt pre kv ↔ kv.2 ≠ svgURI := by
      simp [nsErrAt, hk]
    constructor
    · rw [heq, herr_eq]
      by_cases hv : kv.2 = svgURI
      · simp [hv]
      · simp [hv]
    · intro t1 hok
      rw [heq] at hok
      have hv : kv.2 = svgURI := by
        by_cases hv : kv.2 = svgURI
        · exact hv
        · rw [if_neg hv] at hok
          cases hok
      rw [if_pos hv] at hok
      obtain rfl : t = t1 := by injection hok
      constructor
      · intro k hk2
        rw [← List.append_assoc, lookupNS_append (initialNSMAP ++ pre) [kv] k,
          lookupNS_single_ne kv k (fun he => hk2 (he.trans hk)), Option.or_none]
        exact hlk k hk2
      · exact hsvg
  · have hlkv : lookupNS t kv.1 = lookupNS (initialNSMAP ++ pre) kv.1 := hlk kv.1 hk
    cases hfind : lookupNS (initialNSMAP ++ pre) kv.1 with
    | some v0 =>
        have heq : addOneNS t kv = (if kv.2 = v0 then .ok t else .error ()) := by
          simp [addOneNS, hlkv, hfind]
        have herr_eq : nsErrAt pre kv ↔ kv.2 ≠ v0 := by
          simp [nsErrAt, hk, hfind]
        constructor
        · rw [heq, herr_eq]
          by_cases hv : kv.2 = v0
          · simp [hv]
          · simp [hv]
        · intro t1 hok
          rw [heq] at hok
          have hv : kv.2 = v0 := by
            by_cases hv : kv.2 = v0
            · exact hv
            · rw [if_neg hv] at hok
              cases hok
          rw [if_pos hv] at hok
          obtain rfl : t = t1 := by injection hok
          constructor
          · intro k hk2
            rw [← List.append_assoc, lookupNS_append (initialNSMAP ++ pre) [kv] k, hlk k hk2]
            by_cases hkk : k = kv.1
            · subst hkk
              rw [hfind]
              rfl
            · rw [lookupNS_single_ne kv k hkk, Option.or_none]
          · exact hsvg
    | none =>
        have heq : addOneNS t kv = .ok (t ++ [kv]) := by
          simp [addOneNS, hlkv, hfind, hk]
        have herr_eq : nsErrAt pre kv ↔ False := by
          simp [nsErrAt, hk, hfind]
        constructor
        · rw [heq, herr_eq]
          simp
        · intro t1 hok
          rw [heq] at hok
          obtain rfl : t ++ [kv] = t1 := by injection hok
          constructor
          · intro k hk2
            rw [lookupNS_append t [kv] k, hlk k hk2, ← List.append_assoc,
              lookupNS_append (initialNSMAP ++ pre) [kv] k]
          · rw [lookupNS_append t [kv] (some svgKeyName), hsvg,
              lookupNS_single_ne kv _ (fun he => hk he.symm)]
            rfl

lemma addRootNS_spec :
    ∀ (stream : List (NSKey × List Char)) (t pre : List (NSKey × List Char)),
      NSInv t pre →
      (addRootNS stream t = .error () ↔
        ∃ pre2 kv post, stream = pre2 ++ kv :: post ∧ nsErrAt (pre ++ pre2) kv) ∧
      (∀ t2, addRootNS stream t = .ok t2 → NSInv t2 (pre ++ stream))
  | [], t, pre, hinv => by
      constructor
      · constructor
        · intro herr
          cases herr
        · rintro ⟨pre2, kv, post, h, -⟩
          exact absurd h (by simp)
      · intro t2 hok
        obtain rfl : t = t2 := by injection hok
        simpa using hinv
  | kv :: rest, t, pre, hinv => by
      have h1 := addOneNS_spec t pre kv hinv
      cases hone : addOneNS t kv with
      | error u =>
          have herr : nsErrAt pre kv := h1.1.mp (by rw [hone])
          have hrun : addRootNS (kv :: rest) t = .error () := by
            simp only [addRootNS, Bind.bind, hone, Except.bind]
          constructor
          · rw [hrun]
            constructor
            · intro _
              exact ⟨[], kv, rest, by simp, by simpa using herr⟩
            · intro _
              rfl
          · intro t2 hok
            rw [hrun] at hok
            cases hok
      | ok t1 =>
          have hinv1 : NSInv t1 (pre ++ [kv]) := h1.2 t1 hone
          have hrec := addRootNS_spec rest t1 (pre ++ [kv]) hinv1
          have hnoterr : ¬ nsErrAt pre kv := fun h => by
            have := h1.1.mpr h
            rw [hone] at this
            cases this
          have hrun : addRootNS (kv :: rest) t = addRootNS rest t1 := by
            simp only [addRootNS, Bind.bind, hone, Except.bind]
          constructor
          · rw [hrun, hrec.1]
            constructor
            · rintro ⟨pre2, kv2, post, hsplit, herr2⟩
              refine ⟨kv :: pre2, kv2, post, by rw [hsplit, List.cons_append], ?_⟩
              have : pre ++ kv :: pre2 = (pre ++ [kv]) ++ pre2 := by
                simp
              rw [this]
              exact herr2
            · rintro ⟨pre2, kv2, post, hsplit, herr2⟩
              cases pre2 with
              | nil =>
                  simp only [List.nil_append, List.cons.injEq] at hsplit
                  obtain ⟨rfl, rfl⟩ := hsplit
                  rw [List.append_nil] at herr2
                  exact absurd herr2 hnoterr
              | cons a pre2' =>
                  rw [List.cons_append] at hsplit
                  injection hsplit with ha hrest
                  subst ha
                  refine ⟨pre2', kv2, post, hrest, ?_⟩
                  have : pre ++ kv :: pre2' = (pre ++ [kv]) ++ pre2' := by
                    simp
                  rw [this] at herr2
                  exact herr2
          · intro t2 hok
            rw [hrun] at hok
            have := hrec.2 t2 hok
            have hass : (pre ++ [kv]) ++ rest = pre ++ kv :: rest := by
              simp
            rwa [hass] at this

lemma addRootNS_append (b c : List (NSKey × List Char)) :
    ∀ t : List (NSKey × List Char),
      addRootNS (b ++ c) t = Except.bind (addRootNS b t) (fun t1 => addRootNS c t1) := by
  induction b with
  | nil => intro t; simp [addRootNS, Except.bind]
  | cons kv rest ih =>
      intro t
      cases hone : addOneNS t kv with
      | error u =>
          simp only [List.cons_append, addRootNS, Bind.bind, hone, Except.bind]
      | ok t1 =>
          simp only [List.cons_append, addRootNS, Bind.bind, hone, Except.bind]
          exact ih t1

lemma collect_eq_addRoot :
    ∀ (roots : List (List (NSKey × List Char))) (t : List (NSKey × List Char)),
      collectNSMAP roots t = addRootNS (nsJoin roots) t
  | [], t => by simp [collectNSMAP, nsJoin, addRootNS]
  | b :: roots, t => by
      rw [show nsJoin (b :: roots) = b ++ nsJoin roots from rfl, addRootNS_append]
      cases hone : addRootNS b t with
      | error u =>
          simp only [collectNSMAP, Bind.bind, hone, Except.bind]
      | ok t1 =>
          simp only [collectNSMAP, Bind.bind, hone, Except.bind]
          exact collect_eq_addRoot roots t1

lemma NSInv_initial : NSInv initialNSMAP [] := by
  constructor
  · intro k hk
    simp
  · simp [lookupNS, initialNSMAP, List.find?, svgKeyName, svgURI, sodipodiURI]

/-- **C5 counterexample**: a flowed leaf binding prefix `p` to `u1` and a
no-layout leaf binding the same prefix `p` to `u2` do *not* make the merge
fail — the namespace collection of `_make_finalized_root` iterates only over
the flowed files (line 292), so the no-layout leaf's conflicting binding is
never examined. -/
theorem c5_counterexample :
    mergeNSMAP [[(some ("p").toList, ("u1").toList)]]
        [[(some ("p").toList, ("u2").toList)]]
      = .ok (initialNSMAP ++ [(some ("p").toList, ("u1").toList)]) ∧
    ("u1").toList ≠ ("u2").toList := by
  constructor
  · decide
  · decide

/-- **C5 amended**: the merge collects the namespace declarations of the
*flowed* leaves only (no-layout leaves are not examined) into a table seeded
with the default-SVG and sodipodi bindings, and fails exactly when some flowed
leaf binds a prefix to a URI different from the seeded or first-seen binding
of that prefix (with the prefix `svg` required to equal the default SVG
namespace); on success the table's binding of every non-`svg` prefix is the
seeded or first-seen binding. -/
theorem c5_amended (flowed nolayout : List (List (NSKey × List Char))) :
    (mergeNSMAP flowed nolayout = .error () ↔
      ∃ pre kv post, nsJoin flowed = pre ++ kv :: post ∧ nsErrAt pre kv) ∧
    (∀ t, mergeNSMAP flowed nolayout = .ok t →
      ∀ k, k ≠ some svgKeyName →
        lookupNS t k = lookupNS (initialNSMAP ++ nsJoin flowed) k) := by
  have h := addRootNS_spec (nsJoin flowed) initialNSMAP [] NSInv_initial
  constructor
  · rw [show mergeNSMAP flowed nolayout = addRootNS (nsJoin flowed) initialNSMAP from
      collect_eq_addRoot flowed initialNSMAP]
    simpa using h.1
  · intro t ht k hk
    rw [show mergeNSMAP flowed nolayout = addRootNS (nsJoin flowed) initialNSMAP from
      collect_eq_addRoot flowed initialNSMAP] at ht
    have := h.2 t ht
    rw [List.nil_append] at this
    exact this.1 k hk

/-- Witness for `c5_amended`: one flowed leaf that binds the same prefix `p`
to two different URIs makes the merge fail. -/
theorem c5_witness :
    mergeNSMAP [[(some ("p").toList, ("u1").toList), (some ("p").toList, ("u2").toList)]] []
      = .error () := by
  refine (c5_amended _ _).1.mpr
    ⟨[(some ("p").toList, ("u1").toList)], (some ("p").toList, ("u2").toList), [], ?_, ?_⟩
  · decide
  · simp +decide [nsErrAt, lookupNS, initialNSMAP, svgKeyName, List.find?]

/-! ## Lemmas about the output-tree assembly -/

lemma pass2Go_ok_length (d : Direction) (m s orth : ℚ) (coord : ℚ × ℚ) (hack : Bool)
    (unf inc : ℚ) (n : Nat) :
    ∀ (l : List Entry) (i : Nat) (cum : ℚ) (pl : List Placed) (tot : ℚ),
      pass2Go d m s orth coord hack unf inc n i cum l = .ok (pl, tot) →
      pl.length = l.length := by
  intro l
  induction l with
  | nil =>
      intro i cum pl tot hok
      simp only [pass2Go, Except.ok.injEq, Prod.mk.injEq] at hok
      rw [← hok.1]
      rfl
  | cons e rest ih =>
      intro i cum pl tot hok
      simp only [pass2Go, Bind.bind] at hok
      obtain ⟨p, hp, hok⟩ := exceptBind_ok hok
      obtain ⟨r, hr, hok⟩ := exceptBind_ok hok
      obtain ⟨hpl, -⟩ : p :: r.1 = pl ∧ r.2 = tot := by
        constructor <;> cases hok <;> rfl
      rw [← hpl]
      simp [ih _ _ r.1 r.2 (by rw [hr])]

lemma boxGetSize_ok_length (d : Direction) (m s : ℚ) (coord : ℚ × ℚ)
    (minSz : Option SizeQ) (entries : List Entry) (sz : SizeQ) (placed : List Placed)
    (hok : boxGetSize d m s coord minSz entries = .ok (sz, placed)) :
    placed.length = entries.length := by
  obtain ⟨tot, hp⟩ := boxGetSize_ok_pass2 d m s coord minSz entries sz placed hok
  exact pass2Go_ok_length d m s _ coord _ _ _ _ entries 0 m placed tot hp

lemma fixIds_tag (p : List Char) (e : XElem) : (fixIds p e).tag = e.tag := by
  cases e
  simp [fixIds, XElem.tag]

lemma buildWrapper_tag (n : Nat) (dl : Bool) (doc : LeafDoc) (pl : Placed)
    (w : XElem) (ds : List XElem) (h : buildWrapper n dl doc pl = .ok (w, ds)) :
    w.tag = gTag := by
  simp only [buildWrapper] at h
  by_cases hc : dl = true ∧ (pl.size.width ≠ doc.origW ∨ pl.size.height ≠ doc.origH)
  · rw [if_pos hc] at h
    cases h
  · rw [if_neg hc] at h
    injection h with h2
    injection h2 with hw hds
    rw [← hw, XElem.tag, fixIds_tag]
    rfl

lemma buildWork_spec (dl : Bool) :
    ∀ (l : List (LeafDoc × Placed)) (n : Nat) (ws ds : List XElem),
      buildWork n dl l = .ok (ws, ds) →
      ws.length = l.length ∧ ∀ w ∈ ws, w.tag = gTag
  | [], n, ws, ds, h => by
      obtain ⟨h1, -⟩ : ([] : List XElem) = ws ∧ ([] : List XElem) = ds := by
        constructor <;> cases h <;> rfl
      rw [← h1]
      exact ⟨rfl, by simp⟩
  | dp :: rest, n, ws, ds, h => by
      simp only [buildWork, Bind.bind] at h
      obtain ⟨one, hone, h⟩ := exceptBind_ok h
      obtain ⟨more, hmore, h⟩ := exceptBind_ok h
      obtain ⟨hws, -⟩ : one.1 :: more.1 = ws ∧ one.2 ++ more.2 = ds := by
        constructor <;> cases h <;> rfl
      have hrec := buildWork_spec dl rest (n + 1) more.1 more.2 (by rw [hmore])
      have htag := buildWrapper_tag n dl dp.1 dp.2 one.1 one.2 (by rw [hone])
      rw [← hws]
      refine ⟨by simp [hrec.1], ?_⟩
      intro w hw
      rcases List.mem_cons.mp hw with rfl | hw2
      · exact htag
      · exact hrec.2 w hw2

/-- **C9**: whenever `Document.save` succeeds, the output begins with the
fixed XML declaration line; the root is an `svg` element whose declared
`width`/`height` equal the root layout's computed canvas size; and its
children are, in order: the single shared `defs` container first, then one
wrapper `g` group per leaf in registration order — as many wrappers as there
are leaves, all flowed leaves (in item order) before all no-layout leaves —
and finally the raw decoration fragments. -/
theorem c9_output_structure (d : Direction) (m s : ℚ) (docEntries : List DocEntry)
    (hdr : List Char) (root : XElem)
    (hok : documentSave d m s docEntries = .ok (hdr, root)) :
    hdr = header_str ∧
    ∃ sz placed flWraps nlWraps defsChildren,
      boxGetSize d m s (0, 0) none (docEntries.map (fun de => de.entry)) =
        .ok (sz, placed) ∧
      placed.length = docEntries.length ∧
      root.tag = svgTag ∧
      root.attrs = [(("version").toList, .str ("1.1").toList),
        (("width").toList, .num sz.width),
        (("height").toList, .num sz.height)] ∧
      root.children = .elem defsTag [] defsChildren :: (flWraps ++ nlWraps)
        ++ (docEntries.zip placed).filterMap
            (fun dp => dp.1.xml.map (fun x => rawOf dp.2 x)) ∧
      flWraps.length =
        ((docEntries.zip placed).filter (fun dp => !dp.1.entry.isNoLayout)).length ∧
      nlWraps.length =
        ((docEntries.zip placed).filter (fun dp => dp.1.entry.isNoLayout)).length ∧
      ∀ w ∈ flWraps ++ nlWraps, w.tag = gTag := by
  simp only [documentSave, Bind.bind] at hok
  obtain ⟨r, hr, hok⟩ := exceptBind_ok hok
  obtain ⟨root2, hroot, hok⟩ := exceptBind_ok hok
  obtain ⟨hhdr, hroot2⟩ : header_str = hdr ∧ root2 = root := by
    constructor <;> cases hok <;> rfl
  subst hroot2
  simp only [makeFinalizedRoot, Bind.bind] at hroot
  obtain ⟨ns, hns, hroot⟩ := exceptBind_ok hroot
  obtain ⟨fl, hfl, hroot⟩ := exceptBind_ok hroot
  obtain ⟨nl, hnl, hroot⟩ := exceptBind_ok hroot
  have hfls := buildWork_spec true _ _ fl.1 fl.2 (by rw [hfl])
  have hnls := buildWork_spec false _ _ nl.1 nl.2 (by rw [hnl])
  have hlen := boxGetSize_ok_length d m s (0, 0) none _ r.1 r.2 (by rw [hr])
  injection hroot with hroot1
  refine ⟨hhdr.symm, r.1, r.2, fl.1, nl.1, fl.2 ++ nl.2, by rw [hr], ?_, ?_, ?_, ?_,
    ?_, ?_, ?_⟩
  · rw [hlen, List.length_map]
  · rw [← hroot1]
    rfl
  · rw [← hroot1]
    rfl
  · rw [← hroot1]
    rfl
  · rw [hfls.1, List.length_map]
  · rw [hnls.1, List.length_map]
  · intro w hw
    rcases List.mem_append.mp hw with hw1 | hw2
    · exact hfls.2 w hw1
    · exact hnls.2 w hw2

/-- Witness for `c9_output_structure`: saving a document with a single
100×50 flowed leaf (empty source root, no viewBox) succeeds, and the output
begins with the fixed XML declaration line. -/
theorem c9_witness :
    ("<?xml version=\"1.0\" encoding=\"UTF-8\"?>").toList = header_str := by
  have hid : fixAttrValue ['i', 'd', '0', ':'] ['i', 'd'] ['i', 'd', '0', ':', 'i', 'd', '0']
      = ['i', 'd', '0', ':', 'i', 'd', '0'] := by
    simp +decide [fixAttrValue, relIRI, urlSubGo, xlinkNS, startsWithL, lastIdxOf, urlPat]
  have hsw : startsWithL svgNS gTag = true := by decide
  have hp : idPrefOf 0 = ("id0:").toList := by decide
  have hn : idNameOf 0 = ("id0").toList := by decide
  have heval :
      documentSave Direction.LeftToRight 0 0
          [⟨⟨false, 100, 50, 0, 0, 0, 0⟩, ⟨[], [], none, 100, 50⟩, none⟩] =
        .ok (("<?xml version=\"1.0\" encoding=\"UTF-8\"?>").toList,
          .elem svgTag
            [(("version").toList, .str ("1.1").toList),
             (("width").toList, .num 100),
             (("height").toList, .num 50)]
            [.elem defsTag [] [],
             .elem gTag [(("id").toList, .str ("id0:id0").toList),
               (("transform").toList, .translateT 0 0)] []]) := by
    norm_num [documentSave, boxGetSize, pass2Go, placeOne, childBoxCoord, calcBox,
      newItemSizeOf, stretchHack, stretchInc, dimUnfilledLength, pass1Total, pass1CumFrom,
      pass1ItemSize, newDimLength, mainLen, crossLen, minSize0, qmax, Direction.isHoriz,
      totalStretch, pass1Orth, Nat.land, Bind.bind, Except.bind, Except.map,
      Except.mapError, makeFinalizedRoot, mergeNSMAP, collectNSMAP, addRootNS, buildWork,
      buildWrapper, splitChildren, fixIds, fixElemAttrs, hid, hsw, hp, hn, XElem.tag,
      XElem.attrs, XElem.children, List.filter, List.filterMap, List.zip, List.zipWith,
      header_str]
  exact (c9_output_structure _ _ _ _ _ _ heval).1

end SvgStack
